import Mathlib

/-!
Verification of the two-pass JIT assembler in `src/compiler/jit.rs` of
`fast-bfc`, as a shallow embedding.

Modelling conventions:
* Machine bytes are `Nat` values (each below 256, coming from the literal
  constants of the source); the output buffer is a `List Nat`.
* `u32::to_le_bytes` / `u64::to_le_bytes` with the `as u32` / `as u64`
  truncation become `le32` / `le64`, which take the value modulo `2 ^ 32`
  (resp. `2 ^ 64`) and split it into little-endian bytes.
* The `labels` field (a Rust `HashMap` with insert-overwrites semantics) is
  an association list onto which `def_label` conses; `lookupLabel` returns
  the first (i.e. most recently inserted) match, exactly the map semantics.
  The `HashMap` is only ever queried pointwise, never iterated, so its
  internal ordering is unobservable and the list representation is faithful.
* The `placeholders` field (a Rust `BTreeMap` from buffer offset to label
  key, iterated in ascending key order by `second_pass`) is a list in
  insertion order.  `make_placeholder` always inserts at key
  `self.buf.len()` and then appends four bytes, and the buffer only grows
  during the first pass, so insertion order coincides with ascending key
  order; the lemma `first_pass_placeholders_sorted` proves the recorded
  offsets strictly increase, justifying the representation.
* `Program` and `Instruction` come from `crate::ir`, which is not part of
  the studied fragment; they are modelled from the spec's data model (§3)
  and from their use in `jit.rs` (`program.code` is the instruction list).
* The runtime helpers (`runtime::grow_next`, `grow_prev`, `get`, `put`,
  `TAPE_CHUNK_SIZE`) live in the `runtime` submodule, also outside the
  fragment; generated code only embeds their addresses and the chunk-size
  immediate, so they are abstracted as the `Params` record.
* `cfg!(all(target_os = "linux", target_arch = "x86_64"))` is a
  compile-time boolean of the host; it is the `targetSupported : Bool`
  parameter of `compile`.
* Rust panics are explicit outcomes: the `todo!()` at the end of `compile`
  becomes `Outcome.todoPanic`, and the potential out-of-bounds slice write
  `self.buf[p .. p + 4]` in `second_pass` becomes
  `PassResult.panicOutOfBounds`.
-/

namespace FastBfc

/-- Modelled from the spec: the IR instruction set of `crate::ir` (§3 of the
spec; `src/ir.rs` is not part of the studied fragment).  `Jz`/`Jnz` carry an
IR position as jump target. -/
inductive Instruction where
  | inc
  | dec
  | next
  | prev
  | get
  | put
  | jz (target : Nat)
  | jnz (target : Nat)
  | halt
deriving DecidableEq, Repr

/-- Modelled from the spec: a `Program` is an ordered sequence of
instructions (`program.code` in `jit.rs`). -/
structure Program where
  code : List Instruction
deriving DecidableEq, Repr

/-- Addresses of the externally provided runtime helpers and the tape chunk
size: `runtime::grow_next`, `runtime::grow_prev`, `runtime::get`,
`runtime::put` (function pointers cast to integers by `call_absolute`) and
`runtime::TAPE_CHUNK_SIZE`.  The `runtime` submodule is outside the studied
fragment; only these numbers flow into the emitted bytes. -/
structure Params where
  growNextAddr : Nat
  growPrevAddr : Nat
  getAddr : Nat
  putAddr : Nat
  tapeChunkSize : Nat
deriving DecidableEq, Repr

/-! The encoding table: the byte-sequence constants of `jit.rs`. -/

def PUSH_RBX : List Nat := [0x53]
def PUSH_R12 : List Nat := [0x41, 0x54]
def PUSH_R13 : List Nat := [0x41, 0x55]
def PUSH_R14 : List Nat := [0x41, 0x56]

def POP_R14 : List Nat := [0x41, 0x5e]
def POP_R13 : List Nat := [0x41, 0x5d]
def POP_R12 : List Nat := [0x41, 0x5c]
def POP_RBX : List Nat := [0x5b]

def MOV_RDI_TO_RBX : List Nat := [0x48, 0x89, 0xfb]
def MOV_RSI_TO_R12 : List Nat := [0x49, 0x89, 0xf4]
def MOV_RDX_TO_R13 : List Nat := [0x49, 0x89, 0xd5]
def MOV_R12_TO_RDI : List Nat := [0x4c, 0x89, 0xe7]
def MOV_R13_TO_RSI : List Nat := [0x4c, 0x89, 0xee]
def MOV_RAX_TO_R12 : List Nat := [0x49, 0x89, 0xc4]
def MOV_RBX_TO_RDI : List Nat := [0x48, 0x89, 0xdf]
def MOV_AX_TO_SI : List Nat := [0x66, 0x89, 0xc9]
def MOV_AX_TO_MEM_R12_R14 : List Nat := [0x66, 0x43, 0x89, 0x04, 0x34]
def MOV_MEM_R12_R14_TO_AL : List Nat := [0x43, 0x8a, 0x04, 0x34]
def MOVABS_TO_RAX : List Nat := [0x48, 0xb8]

def CMP_R14_WITH_R13 : List Nat := [0x4d, 0x39, 0xee]
def TEST_R14_WITH_R14 : List Nat := [0x4d, 0x85, 0xf6]
def TEST_AX_WITH_AX : List Nat := [0x66, 0x85, 0xc0]
def TEST_AL_WITH_AL : List Nat := [0x84, 0xc0]

def JMP_REL32 : List Nat := [0xe9]
def JE_JZ_REL32 : List Nat := [0x0f, 0x84]
def JNE_JNZ_REL32 : List Nat := [0x0f, 0x85]
def JS_REL32 : List Nat := [0x0f, 0x88]
def CALL_ABS_RAX : List Nat := [0xff]

def XOR_R14_TO_R14 : List Nat := [0x4d, 0x31, 0xf6]
def XOR_EAX_TO_EAX : List Nat := [0x31, 0xc0]

def ADD_IMM32_TO_R13 : List Nat := [0x49, 0x81, 0xc5]
def ADD_IMM32_TO_R14 : List Nat := [0x49, 0x81, 0xc6]

def ROR_IMM8_TO_AX : List Nat := [0x66, 0xc1, 0xc8]

def INC_R14 : List Nat := [0x49, 0xff, 0xc6]
def DEC_R14 : List Nat := [0x49, 0xff, 0xce]

def INCB_MEM_R12_R14 : List Nat := [0x43, 0xfe, 0x04, 0x34]
def DECB_MEM_R12_R14 : List Nat := [0x43, 0xfe, 0x0c, 0x34]

def RET : List Nat := [0xc3]

/-- `(n as u32).to_le_bytes()`: four little-endian bytes of `n % 2 ^ 32`. -/
def le32 (n : Nat) : List Nat :=
  [n % 256, n / 2 ^ 8 % 256, n / 2 ^ 16 % 256, n / 2 ^ 24 % 256]

/-- `(n as u64).to_le_bytes()`: eight little-endian bytes of `n % 2 ^ 64`. -/
def le64 (n : Nat) : List Nat :=
  [n % 256, n / 2 ^ 8 % 256, n / 2 ^ 16 % 256, n / 2 ^ 24 % 256,
   n / 2 ^ 32 % 256, n / 2 ^ 40 % 256, n / 2 ^ 48 % 256, n / 2 ^ 56 % 256]

/-- The compile-time errors of `jit.rs` (`enum Error`). -/
inductive Error where
  | unsupportedTarget
  | badLabelIndex (n : Nat)
  | allocError
deriving DecidableEq, Repr

/-- The assembler state: output buffer, pending fixups (`placeholders`,
in insertion = ascending-offset order; each entry is
`(buffer offset, ir label, sub label)`), and the label table. -/
structure Compiler where
  buf : List Nat
  placeholders : List (Nat × Nat × Nat)
  labels : List ((Nat × Nat) × Nat)
deriving DecidableEq, Repr

/-- `Compiler::new`. -/
def Compiler.new : Compiler := ⟨[], [], []⟩

/-- `self.buf.extend(bytes)`. -/
def Compiler.extend (c : Compiler) (bs : List Nat) : Compiler :=
  { c with buf := c.buf ++ bs }

/-- `Compiler::def_label`: `self.labels.insert((ir_label, sub_label), self.buf.len())`. -/
def Compiler.def_label (c : Compiler) (ir sub : Nat) : Compiler :=
  { c with labels := ((ir, sub), c.buf.length) :: c.labels }

/-- `Compiler::def_main_label`. -/
def Compiler.def_main_label (c : Compiler) (ir : Nat) : Compiler :=
  c.def_label ir 0

/-- `Compiler::make_placeholder`: record a fixup at the current buffer
length, then append four zero bytes (`0u32.to_le_bytes()`). -/
def Compiler.make_placeholder (c : Compiler) (ir sub : Nat) : Compiler :=
  { c with
    placeholders := c.placeholders ++ [(c.buf.length, ir, sub)],
    buf := c.buf ++ le32 0 }

/-- `Compiler::call_absolute`: movabs imm64 to rax, then call rax. -/
def Compiler.call_absolute (c : Compiler) (funcPtr : Nat) : Compiler :=
  ((c.extend MOVABS_TO_RAX).extend (le64 funcPtr)).extend CALL_ABS_RAX

/-- `Compiler::write_enter` (never called by `first_pass` in the source). -/
def Compiler.write_enter (c : Compiler) : Compiler :=
  (((((((c.extend PUSH_RBX).extend PUSH_R12).extend PUSH_R13).extend
    PUSH_R14).extend MOV_RDI_TO_RBX).extend MOV_RSI_TO_R12).extend
    MOV_RDX_TO_R13).extend XOR_R14_TO_R14

/-- `Compiler::write_leave` (never called by `first_pass` in the source). -/
def Compiler.write_leave (c : Compiler) (ir : Nat) : Compiler :=
  ((((((c.extend XOR_EAX_TO_EAX).def_label ir 1).extend POP_R14).extend
    POP_R13).extend POP_R12).extend POP_RBX).extend RET

/-- `Compiler::write_inc`. -/
def Compiler.write_inc (c : Compiler) : Compiler :=
  c.extend INCB_MEM_R12_R14

/-- `Compiler::write_dec`. -/
def Compiler.write_dec (c : Compiler) : Compiler :=
  c.extend DECB_MEM_R12_R14

/-- `Compiler::write_next`. -/
def Compiler.write_next (c : Compiler) (ps : Params) (ir : Nat) : Compiler :=
  (((((((((c.extend CMP_R14_WITH_R13).extend
    JNE_JNZ_REL32).make_placeholder ir 1).extend
    MOV_R12_TO_RDI).extend MOV_R13_TO_RSI).call_absolute
    ps.growNextAddr).extend MOV_RAX_TO_R12).extend
    ADD_IMM32_TO_R13).extend (le32 ps.tapeChunkSize)).def_label ir 1
    |>.extend INC_R14

/-- `Compiler::write_prev`. -/
def Compiler.write_prev (c : Compiler) (ps : Params) (ir : Nat) : Compiler :=
  (((((((((((c.extend TEST_R14_WITH_R14).extend
    JNE_JNZ_REL32).make_placeholder ir 1).extend
    MOV_R12_TO_RDI).extend MOV_R13_TO_RSI).call_absolute
    ps.growPrevAddr).extend ADD_IMM32_TO_R14).extend
    (le32 ps.tapeChunkSize)).extend MOV_RAX_TO_R12).extend
    ADD_IMM32_TO_R13).extend (le32 ps.tapeChunkSize)).def_label ir 1
    |>.extend DEC_R14

/-- `Compiler::write_put`. -/
def Compiler.write_put (c : Compiler) (ps : Params) (last : Nat) : Compiler :=
  ((((((c.extend MOV_RBX_TO_RDI).extend XOR_EAX_TO_EAX).extend
    MOV_MEM_R12_R14_TO_AL).extend MOV_AX_TO_SI).call_absolute
    ps.putAddr).extend TEST_AL_WITH_AL).extend JS_REL32
    |>.make_placeholder last 1

/-- `Compiler::write_get`. -/
def Compiler.write_get (c : Compiler) (ps : Params) (ir last : Nat) :
    Compiler :=
  ((((((((((((((c.extend CMP_R14_WITH_R13).extend
    JNE_JNZ_REL32).make_placeholder ir 1).extend
    MOV_R12_TO_RDI).extend MOV_R13_TO_RSI).call_absolute
    ps.growNextAddr).extend MOV_RAX_TO_R12).extend
    ADD_IMM32_TO_R13).extend (le32 ps.tapeChunkSize)).def_label ir
    1).extend MOV_RBX_TO_RDI).call_absolute ps.getAddr).extend
    TEST_AX_WITH_AX).extend JS_REL32).make_placeholder last 1
    |>.extend ROR_IMM8_TO_AX |>.extend [8] |>.extend MOV_AX_TO_MEM_R12_R14

/-- `Compiler::write_halt`. -/
def Compiler.write_halt (c : Compiler) (last : Nat) : Compiler :=
  (c.extend JMP_REL32).make_placeholder last 0

/-- `Compiler::write_jz`. -/
def Compiler.write_jz (c : Compiler) (target : Nat) : Compiler :=
  (c.extend JE_JZ_REL32).make_placeholder target 0

/-- `Compiler::write_jnz`. -/
def Compiler.write_jnz (c : Compiler) (target : Nat) : Compiler :=
  (c.extend JNE_JNZ_REL32).make_placeholder target 0

/-- `Compiler::handle_instruction`. -/
def Compiler.handle_instruction (c : Compiler) (ps : Params) (ir : Nat)
    (instr : Instruction) (last : Nat) : Compiler :=
  match instr with
  | .inc => c.write_inc
  | .dec => c.write_dec
  | .next => c.write_next ps ir
  | .prev => c.write_prev ps ir
  | .get => c.write_get ps ir last
  | .put => c.write_put ps last
  | .jz target => c.write_jz target
  | .jnz target => c.write_jnz target
  | .halt => c.write_halt last

/-- The body of the `for (ir_label, instr) in program.code.iter().enumerate()`
loop of `first_pass`, with `i` the position of the head of `l` in the whole
program. -/
def runBody (ps : Params) (last : Nat) :
    Compiler → Nat → List Instruction → Compiler
  | c, _, [] => c
  | c, i, instr :: rest =>
      runBody ps last ((c.def_main_label i).handle_instruction ps i instr last)
        (i + 1) rest

/-- `Compiler::first_pass`: the enumerate loop followed by
`def_main_label(last_ir_label)`. -/
def Compiler.first_pass (c : Compiler) (ps : Params) (p : Program) :
    Compiler :=
  (runBody ps p.code.length c 0 p.code).def_main_label p.code.length

/-- `HashMap::get` on the association-list representation of `labels`:
first (most recent) match wins. -/
def lookupLabel : List ((Nat × Nat) × Nat) → Nat × Nat → Option Nat
  | [], _ => none
  | (k, v) :: rest, key => if k = key then some v else lookupLabel rest key

/-- `self.buf[off .. off + 4].copy_from_slice(w)` (callers establish
`off + 4 ≤ buf.length`; `w` always has length 4). -/
def patch4 (buf : List Nat) (off : Nat) (w : List Nat) : List Nat :=
  buf.take off ++ w ++ buf.drop (off + 4)

/-- Result of the second pass: patched buffer, `Error::BadLabelIndex`, or the
panic a Rust out-of-bounds slice write would raise. -/
inductive PassResult where
  | ok (buf : List Nat)
  | badLabelIndex (n : Nat)
  | panicOutOfBounds
deriving DecidableEq, Repr

/-- The loop of `Compiler::second_pass`, iterating the fixups in
ascending-offset (= insertion) order. -/
def secondPassAux (labels : List ((Nat × Nat) × Nat)) :
    List (Nat × Nat × Nat) → List Nat → PassResult
  | [], buf => .ok buf
  | (off, ir, sub) :: rest, buf =>
    match lookupLabel labels (ir, sub) with
    | none => .badLabelIndex ir
    | some lbl =>
        if off + 4 ≤ buf.length then
          secondPassAux labels rest (patch4 buf off (le32 lbl))
        else
          .panicOutOfBounds

/-- `Compiler::second_pass`. -/
def Compiler.second_pass (c : Compiler) : PassResult :=
  secondPassAux c.labels c.placeholders c.buf

/-- Outcome of `compile`: `Ok(Executable)`, `Err(_)`, the `todo!()` panic at
the end of the function, or a slice-bounds panic inside `second_pass`. -/
inductive Outcome where
  | executable
  | failure (e : Error)
  | todoPanic
  | slicePanic
deriving DecidableEq, Repr

/-- `compile`: check `TARGET_SUPPORTED`, run the two passes, then `todo!()`.
`Executable` is never constructed and `Error::AllocError` is never returned
in the source. -/
def compile (targetSupported : Bool) (ps : Params) (p : Program) : Outcome :=
  if targetSupported then
    match (Compiler.new.first_pass ps p).second_pass with
    | .ok _ => .todoPanic
    | .badLabelIndex n => .failure (.badLabelIndex n)
    | .panicOutOfBounds => .slicePanic
  else
    .failure .unsupportedTarget

/-- Arbitrary concrete helper addresses and chunk size for evaluation. -/
def demoParams : Params := ⟨1, 2, 3, 4, 1024⟩

example : compile true demoParams ⟨[]⟩ = Outcome.todoPanic := by decide

example : compile true demoParams ⟨[Instruction.put]⟩ =
    Outcome.failure (Error.badLabelIndex 1) := by decide

example : compile true demoParams ⟨[Instruction.jz 5, Instruction.jz 7]⟩ =
    Outcome.failure (Error.badLabelIndex 5) := by decide

example : compile true demoParams ⟨[Instruction.inc, Instruction.halt]⟩ =
    Outcome.todoPanic := by decide

/-! ### Field computation lemmas for the primitive buffer operations -/

@[simp] theorem extend_buf (c : Compiler) (bs : List Nat) :
    (c.extend bs).buf = c.buf ++ bs := rfl

@[simp] theorem extend_placeholders (c : Compiler) (bs : List Nat) :
    (c.extend bs).placeholders = c.placeholders := rfl

@[simp] theorem extend_labels (c : Compiler) (bs : List Nat) :
    (c.extend bs).labels = c.labels := rfl

@[simp] theorem def_label_buf (c : Compiler) (i s : Nat) :
    (c.def_label i s).buf = c.buf := rfl

@[simp] theorem def_label_placeholders (c : Compiler) (i s : Nat) :
    (c.def_label i s).placeholders = c.placeholders := rfl

@[simp] theorem def_label_labels (c : Compiler) (i s : Nat) :
    (c.def_label i s).labels = ((i, s), c.buf.length) :: c.labels := rfl

@[simp] theorem def_main_label_eq (c : Compiler) (i : Nat) :
    c.def_main_label i = c.def_label i 0 := rfl

@[simp] theorem make_placeholder_buf (c : Compiler) (i s : Nat) :
    (c.make_placeholder i s).buf = c.buf ++ le32 0 := rfl

@[simp] theorem make_placeholder_placeholders (c : Compiler) (i s : Nat) :
    (c.make_placeholder i s).placeholders =
      c.placeholders ++ [(c.buf.length, i, s)] := rfl

@[simp] theorem make_placeholder_labels (c : Compiler) (i s : Nat) :
    (c.make_placeholder i s).labels = c.labels := rfl

@[simp] theorem call_absolute_eq (c : Compiler) (fp : Nat) :
    c.call_absolute fp =
      ((c.extend MOVABS_TO_RAX).extend (le64 fp)).extend CALL_ABS_RAX := rfl

@[simp] theorem le32_length (n : Nat) : (le32 n).length = 4 := rfl

@[simp] theorem le64_length (n : Nat) : (le64 n).length = 8 := rfl

/-! ### Lemmas about `lookupLabel` -/

theorem lookupLabel_cons_ne {k' : Nat × Nat} {v : Nat}
    {L : List ((Nat × Nat) × Nat)} {k : Nat × Nat} (h : k' ≠ k) :
    lookupLabel ((k', v) :: L) k = lookupLabel L k := by
  simp [lookupLabel, h]

theorem lookupLabel_append_of_ne {nl L : List ((Nat × Nat) × Nat)}
    {k : Nat × Nat} (h : ∀ e ∈ nl, e.1 ≠ k) :
    lookupLabel (nl ++ L) k = lookupLabel L k := by
  induction nl with
  | nil => rfl
  | cons e rest ih =>
      obtain ⟨k', v⟩ := e
      have hne : k' ≠ k := h (k', v) (by simp)
      rw [List.cons_append]
      simp only [lookupLabel, if_neg hne]
      exact ih fun e he => h e (by simp [he])

theorem lookupLabel_eq_none {L : List ((Nat × Nat) × Nat)} {k : Nat × Nat}
    (h : ∀ e ∈ L, e.1 ≠ k) : lookupLabel L k = none := by
  induction L with
  | nil => rfl
  | cons e rest ih =>
      obtain ⟨k', v⟩ := e
      have hne : k' ≠ k := h (k', v) (by simp)
      simp only [lookupLabel, if_neg hne]
      exact ih fun e he => h e (by simp [he])

/-! ### The emission frame

`Emits P c c'` says that `c'` arises from `c` by appending bytes to the
buffer, appending fixups whose offsets lie inside the appended region, and
prepending label entries whose keys satisfy `P`.  Every code template is an
`Emits` step; the relation composes, which yields the global first-pass
invariants (placeholder offsets are in bounds and strictly increasing, and
all label keys are bounded). -/

def Emits (P : Nat × Nat → Prop) (c c' : Compiler) : Prop :=
  ∃ d np nl,
    c'.buf = c.buf ++ d ∧
    c'.placeholders = c.placeholders ++ np ∧
    c'.labels = nl ++ c.labels ∧
    (∀ e ∈ np, c.buf.length ≤ e.1 ∧ e.1 + 4 ≤ c'.buf.length) ∧
    np.Pairwise (fun a b => a.1 < b.1) ∧
    (∀ e ∈ nl, P e.1)

theorem Emits.buf_le {P : Nat × Nat → Prop} {c c' : Compiler}
    (h : Emits P c c') : c.buf.length ≤ c'.buf.length := by
  obtain ⟨d, np, nl, hb, -, -, -, -, -⟩ := h
  simp [hb]

theorem Emits.refl (P : Nat × Nat → Prop) (c : Compiler) : Emits P c c :=
  ⟨[], [], [], by simp, by simp, by simp, by simp, by simp, by simp⟩

theorem Emits.trans {P : Nat × Nat → Prop} {c c' c'' : Compiler}
    (h1 : Emits P c c') (h2 : Emits P c' c'') : Emits P c c'' := by
  obtain ⟨d1, np1, nl1, hb1, hp1, hl1, hbd1, hs1, hk1⟩ := h1
  obtain ⟨d2, np2, nl2, hb2, hp2, hl2, hbd2, hs2, hk2⟩ := h2
  refine ⟨d1 ++ d2, np1 ++ np2, nl2 ++ nl1, ?_, ?_, ?_, ?_, ?_, ?_⟩
  · simp [hb2, hb1]
  · simp [hp2, hp1]
  · simp [hl2, hl1]
  · intro e he
    rcases List.mem_append.1 he with h | h
    · obtain ⟨h1l, h1r⟩ := hbd1 e h
      have : c'.buf.length ≤ c''.buf.length := by simp [hb2]
      exact ⟨h1l, le_trans h1r this⟩
    · obtain ⟨h2l, h2r⟩ := hbd2 e h
      have : c.buf.length ≤ c'.buf.length := by simp [hb1]
      exact ⟨le_trans this h2l, h2r⟩
  · rw [List.pairwise_append]
    refine ⟨hs1, hs2, ?_⟩
    intro a ha b hb
    obtain ⟨-, har⟩ := hbd1 a ha
    obtain ⟨hbl, -⟩ := hbd2 b hb
    omega
  · intro e he
    rcases List.mem_append.1 he with h | h
    · exact hk2 e h
    · exact hk1 e h

theorem Emits.mono {P Q : Nat × Nat → Prop} {c c' : Compiler}
    (hPQ : ∀ k, P k → Q k) (h : Emits P c c') : Emits Q c c' := by
  obtain ⟨d, np, nl, hb, hp, hl, hbd, hs, hk⟩ := h
  exact ⟨d, np, nl, hb, hp, hl, hbd, hs, fun e he => hPQ _ (hk e he)⟩

theorem emits_extend (P : Nat × Nat → Prop) (c : Compiler) (bs : List Nat) :
    Emits P c (c.extend bs) :=
  ⟨bs, [], [], by simp, by simp, by simp, by simp, by simp, by simp⟩

theorem emits_def_label {P : Nat × Nat → Prop} (c : Compiler) {i s : Nat}
    (h : P (i, s)) : Emits P c (c.def_label i s) :=
  ⟨[], [], [((i, s), c.buf.length)], by simp, by simp, by simp, by simp,
    by simp, by simp [h]⟩

theorem emits_make_placeholder (P : Nat × Nat → Prop) (c : Compiler)
    (i s : Nat) : Emits P c (c.make_placeholder i s) :=
  ⟨le32 0, [(c.buf.length, i, s)], [], by simp, by simp, by simp,
    by simp, by simp, by simp⟩

theorem emits_call_absolute (P : Nat × Nat → Prop) (c : Compiler)
    (fp : Nat) : Emits P c (c.call_absolute fp) :=
  ((emits_extend P c _).trans (emits_extend P _ _)).trans (emits_extend P _ _)

theorem Emits.step_extend {P : Nat × Nat → Prop} {c c' : Compiler}
    (h : Emits P c c') (bs : List Nat) : Emits P c (c'.extend bs) :=
  h.trans (emits_extend P c' bs)

theorem Emits.step_def {P : Nat × Nat → Prop} {c c' : Compiler}
    (h : Emits P c c') {i s : Nat} (hk : P (i, s)) :
    Emits P c (c'.def_label i s) :=
  h.trans (emits_def_label c' hk)

theorem Emits.step_mkph {P : Nat × Nat → Prop} {c c' : Compiler}
    (h : Emits P c c') (i s : Nat) : Emits P c (c'.make_placeholder i s) :=
  h.trans (emits_make_placeholder P c' i s)

theorem Emits.step_call {P : Nat × Nat → Prop} {c c' : Compiler}
    (h : Emits P c c') (fp : Nat) : Emits P c (c'.call_absolute fp) :=
  h.trans (emits_call_absolute P c' fp)

/-- Every per-instruction template is an emission step whose new label keys
are exactly the internal sub-label `(ir, 1)`. -/
theorem emits_handle (c : Compiler) (ps : Params) (ir : Nat)
    (instr : Instruction) (last : Nat) :
    Emits (fun k => k = (ir, 1)) c (c.handle_instruction ps ir instr last) := by
  have h0 : Emits (fun k => k = (ir, 1)) c c :=
    Emits.refl (fun k => k = (ir, 1)) c
  have hP : (ir, 1) = (ir, 1) := rfl
  cases instr with
  | inc => exact h0.step_extend _
  | dec => exact h0.step_extend _
  | next =>
      exact (((((((((((h0.step_extend _).step_extend
        _).step_mkph _ _).step_extend _).step_extend _).step_call
        _).step_extend _).step_extend _).step_extend _).step_def
        hP).step_extend _)
  | prev =>
      exact (((((((((((((h0.step_extend _).step_extend
        _).step_mkph _ _).step_extend _).step_extend _).step_call
        _).step_extend _).step_extend _).step_extend _).step_extend
        _).step_extend _).step_def hP).step_extend _)
  | get =>
      exact ((((((((((((((((((h0.step_extend _).step_extend
        _).step_mkph _ _).step_extend _).step_extend _).step_call
        _).step_extend _).step_extend _).step_extend _).step_def
        hP).step_extend _).step_call _).step_extend _).step_extend
        _).step_mkph _ _).step_extend _).step_extend _).step_extend _)
  | put =>
      exact ((((((((h0.step_extend _).step_extend
        _).step_extend _).step_extend _).step_call _).step_extend
        _).step_extend _).step_mkph _ _)
  | jz target => exact (h0.step_extend _).step_mkph _ _
  | jnz target => exact (h0.step_extend _).step_mkph _ _
  | halt => exact (h0.step_extend _).step_mkph _ _

/-- The enumerate loop starting at position `i` only creates label keys
whose IR position lies in `[i, i + length)`. -/
theorem emits_runBody (ps : Params) (last : Nat) :
    ∀ (l : List Instruction) (c : Compiler) (i : Nat),
      Emits (fun k => i ≤ k.1 ∧ k.1 ≤ i + l.length) c (runBody ps last c i l) := by
  intro l
  induction l with
  | nil => intro c i; exact Emits.refl _ c
  | cons instr rest ih =>
      intro c i
      have h1 : Emits (fun k => i ≤ k.1 ∧ k.1 ≤ i + (instr :: rest).length) c
          (c.def_main_label i) := by
        refine emits_def_label c ?_
        constructor <;> simp
      have h2 := (emits_handle (c.def_main_label i) ps i instr last).mono
        (Q := fun k => i ≤ k.1 ∧ k.1 ≤ i + (instr :: rest).length)
        (by rintro k rfl; constructor <;> simp)
      have h3 := (ih ((c.def_main_label i).handle_instruction ps i instr last)
        (i + 1)).mono
        (Q := fun k => i ≤ k.1 ∧ k.1 ≤ i + (instr :: rest).length)
        (by
          intro k hk
          simp only [List.length_cons] at *
          omega)
      exact (h1.trans h2).trans h3

/-- Global first-pass invariant: starting from `Compiler::new`, every label
key's IR position is at most the program length, every fixup offset is
within the final buffer, and the fixup offsets are strictly increasing. -/
theorem emits_first_pass (ps : Params) (p : Program) :
    Emits (fun k => k.1 ≤ p.code.length) Compiler.new
      (Compiler.new.first_pass ps p) := by
  have h := (emits_runBody ps p.code.length p.code Compiler.new 0).mono
    (Q := fun k => k.1 ≤ p.code.length) (by intro k hk; omega)
  exact h.step_def (le_refl p.code.length)

theorem first_pass_placeholders_bound (ps : Params) (p : Program) :
    ∀ e ∈ (Compiler.new.first_pass ps p).placeholders,
      e.1 + 4 ≤ (Compiler.new.first_pass ps p).buf.length := by
  obtain ⟨d, np, nl, hb, hp, hl, hbd, hs, hk⟩ := emits_first_pass ps p
  intro e he
  rw [hp] at he
  simp only [Compiler.new, List.nil_append] at he
  exact (hbd e he).2

theorem first_pass_placeholders_sorted (ps : Params) (p : Program) :
    ((Compiler.new.first_pass ps p).placeholders).Pairwise
      (fun a b => a.1 < b.1) := by
  obtain ⟨d, np, nl, hb, hp, hl, hbd, hs, hk⟩ := emits_first_pass ps p
  rw [hp]
  simpa [Compiler.new] using hs

theorem first_pass_labels_bound (ps : Params) (p : Program) :
    ∀ e ∈ (Compiler.new.first_pass ps p).labels, e.1.1 ≤ p.code.length := by
  obtain ⟨d, np, nl, hb, hp, hl, hbd, hs, hk⟩ := emits_first_pass ps p
  intro e he
  rw [hl] at he
  simp only [Compiler.new, List.append_nil] at he
  exact hk e he

/-! ### Membership of jump fixups -/

theorem handle_ph_mono {c : Compiler} {ps : Params} {ir : Nat}
    {instr : Instruction} {last : Nat} {e : Nat × Nat × Nat}
    (he : e ∈ c.placeholders) :
    e ∈ (c.handle_instruction ps ir instr last).placeholders := by
  obtain ⟨d, np, nl, hb, hp, -, -, -, -⟩ :=
    emits_handle c ps ir instr last
  rw [hp]
  exact List.mem_append_left _ he

theorem runBody_ph_mono {ps : Params} {last : Nat} {l : List Instruction}
    {c : Compiler} {i : Nat} {e : Nat × Nat × Nat}
    (he : e ∈ c.placeholders) : e ∈ (runBody ps last c i l).placeholders := by
  obtain ⟨d, np, nl, hb, hp, -, -, -, -⟩ := emits_runBody ps last l c i
  rw [hp]
  exact List.mem_append_left _ he

theorem handle_jz_placeholders (c : Compiler) (ps : Params) (ir t last : Nat) :
    (c.handle_instruction ps ir (Instruction.jz t) last).placeholders =
      c.placeholders ++ [(c.buf.length + 2, t, 0)] := by
  simp [Compiler.handle_instruction, Compiler.write_jz, JE_JZ_REL32]

theorem handle_jnz_placeholders (c : Compiler) (ps : Params) (ir t last : Nat) :
    (c.handle_instruction ps ir (Instruction.jnz t) last).placeholders =
      c.placeholders ++ [(c.buf.length + 2, t, 0)] := by
  simp [Compiler.handle_instruction, Compiler.write_jnz, JNE_JNZ_REL32]

/-- Every `Jz`/`Jnz` instruction in the program leaves a fixup for the label
key `(t, 0)` in the fixup table. -/
theorem runBody_mem_jump (ps : Params) (last : Nat) :
    ∀ (l : List Instruction) (c : Compiler) (i t : Nat),
      (Instruction.jz t ∈ l ∨ Instruction.jnz t ∈ l) →
      ∃ off, (off, t, 0) ∈ (runBody ps last c i l).placeholders := by
  intro l
  induction l with
  | nil => intro c i t h; rcases h with h | h <;> simp at h
  | cons instr rest ih =>
      intro c i t h
      have hstep :
          runBody ps last c i (instr :: rest) =
            runBody ps last
              ((c.def_main_label i).handle_instruction ps i instr last)
              (i + 1) rest := rfl
      rcases h with h | h
      · rcases List.mem_cons.1 h with hh | ht
        · refine ⟨(c.def_main_label i).buf.length + 2, ?_⟩
          rw [hstep]
          apply runBody_ph_mono
          rw [← hh, handle_jz_placeholders]
          exact List.mem_append_right _ (by simp)
        · rw [hstep]; exact ih _ (i + 1) t (Or.inl ht)
      · rcases List.mem_cons.1 h with hh | ht
        · refine ⟨(c.def_main_label i).buf.length + 2, ?_⟩
          rw [hstep]
          apply runBody_ph_mono
          rw [← hh, handle_jnz_placeholders]
          exact List.mem_append_right _ (by simp)
        · rw [hstep]; exact ih _ (i + 1) t (Or.inr ht)

theorem first_pass_mem_jump (ps : Params) (p : Program) (t : Nat)
    (h : Instruction.jz t ∈ p.code ∨ Instruction.jnz t ∈ p.code) :
    ∃ off, (off, t, 0) ∈ (Compiler.new.first_pass ps p).placeholders := by
  unfold Compiler.first_pass
  simp only [def_main_label_eq, def_label_placeholders]
  exact runBody_mem_jump ps p.code.length p.code Compiler.new 0 t h

/-! ### Second-pass lemmas -/

theorem patch4_length {buf : List Nat} {off : Nat} {w : List Nat}
    (h : off + 4 ≤ buf.length) (hw : w.length = 4) :
    (patch4 buf off w).length = buf.length := by
  simp only [patch4, List.length_append, List.length_take, List.length_drop,
    hw]
  omega

theorem drop_append_len {α : Type} {l1 l2 : List α} {n : Nat}
    (h : l1.length = n) : (l1 ++ l2).drop n = l2 := by
  subst h
  exact List.drop_left l1 l2

theorem take_append_len {α : Type} {l1 l2 : List α} {n : Nat}
    (h : l1.length = n) : (l1 ++ l2).take n = l1 := by
  subst h
  exact List.take_left l1 l2

/-- If every recorded fixup offset is in bounds, the second pass never hits
the out-of-bounds slice panic. -/
theorem secondPassAux_ne_panic (labels : List ((Nat × Nat) × Nat)) :
    ∀ (phs : List (Nat × Nat × Nat)) (buf : List Nat),
      (∀ e ∈ phs, e.1 + 4 ≤ buf.length) →
      secondPassAux labels phs buf ≠ PassResult.panicOutOfBounds := by
  intro phs
  induction phs with
  | nil => intro buf h; simp [secondPassAux]
  | cons e rest ih =>
      intro buf h
      obtain ⟨off, ir, sub⟩ := e
      have hb : off + 4 ≤ buf.length := h (off, ir, sub) (by simp)
      cases hl : lookupLabel labels (ir, sub) with
      | none => simp [secondPassAux, hl]
      | some lbl =>
          simp only [secondPassAux, hl, if_pos hb]
          apply ih
          intro e he
          rw [patch4_length hb (le32_length lbl)]
          exact h e (List.mem_cons_of_mem _ he)

/-- A successful second pass never changes the buffer length. -/
theorem secondPassAux_ok_length (labels : List ((Nat × Nat) × Nat)) :
    ∀ (phs : List (Nat × Nat × Nat)) (buf buf' : List Nat),
      secondPassAux labels phs buf = PassResult.ok buf' →
      buf'.length = buf.length := by
  intro phs
  induction phs with
  | nil =>
      intro buf buf' h
      simp only [secondPassAux, PassResult.ok.injEq] at h
      rw [h]
  | cons e rest ih =>
      intro buf buf' h
      obtain ⟨off, ir, sub⟩ := e
      cases hl : lookupLabel labels (ir, sub) with
      | none => simp [secondPassAux, hl] at h
      | some lbl =>
          by_cases hb : off + 4 ≤ buf.length
          · simp only [secondPassAux, hl, if_pos hb] at h
            rw [ih _ _ h, patch4_length hb (le32_length lbl)]
          · simp [secondPassAux, hl, if_neg hb] at h

/-- An in-bounds fixup whose label key is undefined forces the second pass
to fail with some `BadLabelIndex`. -/
theorem secondPassAux_unresolved (labels : List ((Nat × Nat) × Nat)) :
    ∀ (phs : List (Nat × Nat × Nat)) (buf : List Nat),
      (∀ e ∈ phs, e.1 + 4 ≤ buf.length) →
      (∃ e ∈ phs, lookupLabel labels e.2 = none) →
      ∃ n, secondPassAux labels phs buf = PassResult.badLabelIndex n := by
  intro phs
  induction phs with
  | nil => intro buf hb h; simp at h
  | cons e rest ih =>
      intro buf hb h
      obtain ⟨off, ir, sub⟩ := e
      cases hl : lookupLabel labels (ir, sub) with
      | none => exact ⟨ir, by simp [secondPassAux, hl]⟩
      | some lbl =>
          have hb0 : off + 4 ≤ buf.length := hb (off, ir, sub) (by simp)
          obtain ⟨e0, he0, hn0⟩ := h
          rcases List.mem_cons.1 he0 with hh | ht
          · rw [hh] at hn0
            simp only at hn0
            rw [hn0] at hl
            cases hl
          · simp only [secondPassAux, hl, if_pos hb0]
            apply ih
            · intro e he
              rw [patch4_length hb0 (le32_length lbl)]
              exact hb e (List.mem_cons_of_mem _ he)
            · exact ⟨e0, ht, hn0⟩

/-- The enumerate loop, started at position `i` on instruction list `l`,
defines the entry label `(i + j, 0)` (for `j < l.length`) at the buffer
length reached immediately before instruction `i + j`'s template is
emitted, i.e. after processing exactly the first `j` instructions. -/
theorem runBody_lookup_main (ps : Params) (last : Nat) :
    ∀ (l : List Instruction) (c : Compiler) (i j : Nat), j < l.length →
      lookupLabel (runBody ps last c i l).labels (i + j, 0) =
        some ((runBody ps last c i (l.take j)).buf.length) := by
  intro l
  induction l with
  | nil => intro c i j h; simp at h
  | cons instr rest ih =>
      intro c i j h
      cases j with
      | zero =>
          obtain ⟨d, np, nl, hb, hp, hl, hbd, hs, hk⟩ :=
            emits_runBody ps last rest
              ((c.def_main_label i).handle_instruction ps i instr last) (i + 1)
          obtain ⟨dH, npH, nlH, hbH, hpH, hlH, hbdH, hsH, hkH⟩ :=
            emits_handle (c.def_main_label i) ps i instr last
          have hrw : (runBody ps last c i (instr :: rest)).labels =
              nl ++ (nlH ++ (((i, 0), c.buf.length) :: c.labels)) := by
            show (runBody ps last
              ((c.def_main_label i).handle_instruction ps i instr last)
              (i + 1) rest).labels = _
            rw [hl, hlH]
            simp
          rw [hrw]
          rw [lookupLabel_append_of_ne (fun e he => ?_),
            lookupLabel_append_of_ne (fun e he => ?_)]
          · simp [lookupLabel, runBody]
          · have := hkH e he
            intro hkey
            rw [this] at hkey
            simp at hkey
          · have := hk e he
            intro hkey
            rw [hkey] at this
            simp at this
      | succ j' =>
          have hj : j' < rest.length := by
            simp only [List.length_cons] at h
            omega
          have hkey : i + (j' + 1) = (i + 1) + j' := by omega
          show lookupLabel (runBody ps last
              ((c.def_main_label i).handle_instruction ps i instr last)
              (i + 1) rest).labels (i + (j' + 1), 0) =
            some ((runBody ps last
              ((c.def_main_label i).handle_instruction ps i instr last)
              (i + 1) (rest.take j')).buf.length)
          rw [hkey]
          exact ih _ (i + 1) j' hj

/-! ### The claims -/

/-- **C1** (code bug exhibit): on the supported target, when both passes
succeed, `compile` reaches the `todo!()` at the end of the function and
panics instead of returning an `Executable`; `Executable` is never
constructed and `AllocError` is never returned.  Shown here on the empty
program and on `[Inc, Halt]`. -/
theorem compile_success_path_panics :
    compile true demoParams ⟨[]⟩ = Outcome.todoPanic ∧
    compile true demoParams ⟨[Instruction.inc, Instruction.halt]⟩ =
      Outcome.todoPanic := by decide

/-- **C2** (code bug exhibit): `first_pass` never calls `write_enter` or
`write_leave`, so neither the prologue nor the epilogue appears in the
output buffer.  For the one-instruction program `[Inc]` the whole buffer is
just the `Inc` template; the prologue `write_enter` would emit starts with
`0x53` (`push rbx`) and the epilogue ends with `0xc3` (`ret`), neither of
which is present. -/
theorem prologue_epilogue_not_emitted :
    (Compiler.new.first_pass demoParams ⟨[Instruction.inc]⟩).buf =
      [0x43, 0xfe, 0x04, 0x34] ∧
    Compiler.new.write_enter.buf =
      [0x53, 0x41, 0x54, 0x41, 0x55, 0x41, 0x56, 0x48, 0x89, 0xfb,
        0x49, 0x89, 0xf4, 0x49, 0x89, 0xd5, 0x4d, 0x31, 0xf6] ∧
    (Compiler.new.write_leave 1).buf.getLast? = some 0xc3 ∧
    (Compiler.new.first_pass demoParams ⟨[Instruction.inc]⟩).buf.getLast? ≠
      some 0xc3 := by decide

/-- **C3** (code bug exhibit): the `Put`/`Get` templates create fixups for
the label key `(program length, 1)`, which only `write_leave` would define;
since `first_pass` never calls `write_leave`, those fixups stay unresolved
and `compile` fails with `BadLabelIndex(program length)` on every program
containing `Put` or `Get` — even with all jump targets in range. -/
theorem put_get_fixups_unresolved :
    compile true demoParams ⟨[Instruction.put]⟩ =
      Outcome.failure (Error.badLabelIndex 1) ∧
    compile true demoParams ⟨[Instruction.get]⟩ =
      Outcome.failure (Error.badLabelIndex 1) ∧
    (Compiler.new.first_pass demoParams ⟨[Instruction.put]⟩).placeholders =
      [(27, 1, 1)] ∧
    lookupLabel
      (Compiler.new.first_pass demoParams ⟨[Instruction.put]⟩).labels
      (1, 1) = none := by decide

/-- **C4** (counterexample): the program `[Jz 5, Jz 7]` contains the jump
`Jz 7` whose target `7` exceeds the program length `2`, yet `compile`
returns `BadLabelIndex 5` — the ir-index of the *first* unresolved fixup in
buffer order — not `BadLabelIndex 7`. -/
theorem badLabelIndex_not_exactly_t :
    Instruction.jz 7 ∈ (⟨[Instruction.jz 5, Instruction.jz 7]⟩ : Program).code ∧
    (⟨[Instruction.jz 5, Instruction.jz 7]⟩ : Program).code.length < 7 ∧
    compile true demoParams ⟨[Instruction.jz 5, Instruction.jz 7]⟩ =
      Outcome.failure (Error.badLabelIndex 5) ∧
    compile true demoParams ⟨[Instruction.jz 5, Instruction.jz 7]⟩ ≠
      Outcome.failure (Error.badLabelIndex 7) := by decide

/-- **C4** (amended): on the supported target, a program containing a `Jz`
or `Jnz` whose target index `t` strictly exceeds the program length makes
`compile` return a `BadLabelIndex` error (carrying the ir-index of the
first unresolved fixup in buffer order, which need not be `t`). -/
theorem out_of_range_jump_fails (ps : Params) (p : Program) (t : Nat)
    (hmem : Instruction.jz t ∈ p.code ∨ Instruction.jnz t ∈ p.code)
    (ht : p.code.length < t) :
    ∃ n, compile true ps p = Outcome.failure (Error.badLabelIndex n) := by
  obtain ⟨off, hoff⟩ := first_pass_mem_jump ps p t hmem
  have hnone :
      lookupLabel (Compiler.new.first_pass ps p).labels (t, 0) = none := by
    apply lookupLabel_eq_none
    intro e he hkey
    have hb := first_pass_labels_bound ps p e he
    rw [hkey] at hb
    have hb2 : t ≤ p.code.length := hb
    omega
  obtain ⟨n, hn⟩ := secondPassAux_unresolved
    (Compiler.new.first_pass ps p).labels
    (Compiler.new.first_pass ps p).placeholders
    (Compiler.new.first_pass ps p).buf
    (first_pass_placeholders_bound ps p)
    ⟨(off, t, 0), hoff, hnone⟩
  have hsp : (Compiler.new.first_pass ps p).second_pass =
      PassResult.badLabelIndex n := hn
  exact ⟨n, by simp [compile, hsp]⟩

theorem out_of_range_jump_fails_witness :
    ∃ n, compile true demoParams ⟨[Instruction.jz 5]⟩ =
      Outcome.failure (Error.badLabelIndex n) :=
  out_of_range_jump_fails demoParams ⟨[Instruction.jz 5]⟩ 5
    (Or.inl (by decide)) (by decide)

/-- **C5**: when the target is unsupported, `compile` returns
`UnsupportedTarget` before any buffer work: the outcome is produced by the
up-front check and is independent of the program and of the runtime
parameters (no `Compiler` state and no code is ever created). -/
theorem unsupported_target_early_error :
    ∀ (ps ps' : Params) (p p' : Program),
      compile false ps p = Outcome.failure Error.unsupportedTarget ∧
      compile false ps p = compile false ps' p' := by
  intro ps ps' p p'
  exact ⟨rfl, rfl⟩

/-- **C6**: pass 1 walks the program in IR order; for every position
`i ≤ length` it defines the entry label `(i, 0)` at the buffer length
current immediately before instruction `i`'s template is emitted (the
buffer produced by the first `i` instructions), and the extra end-of-program
entry label `(length, 0)` sits at the final buffer length. -/
theorem first_pass_defines_entry_labels (ps : Params) (p : Program) :
    (∀ i, i ≤ p.code.length →
      lookupLabel (Compiler.new.first_pass ps p).labels (i, 0) =
        some ((runBody ps p.code.length Compiler.new 0
          (p.code.take i)).buf.length)) ∧
    lookupLabel (Compiler.new.first_pass ps p).labels (p.code.length, 0) =
      some ((Compiler.new.first_pass ps p).buf.length) := by
  constructor
  · intro i hi
    rcases Nat.lt_or_ge i p.code.length with hlt | hge
    · have hmain :=
        runBody_lookup_main ps p.code.length p.code Compiler.new 0 i hlt
      rw [Nat.zero_add] at hmain
      have hne : ((p.code.length, 0) : Nat × Nat) ≠ (i, 0) := by
        intro hkey
        simp only [Prod.mk.injEq] at hkey
        omega
      unfold Compiler.first_pass
      simp only [def_main_label_eq, def_label_labels]
      simp only [lookupLabel, if_neg hne]
      exact hmain
    · have heq : i = p.code.length := le_antisymm hi hge
      subst heq
      unfold Compiler.first_pass
      simp only [def_main_label_eq, def_label_labels, lookupLabel,
        eq_self_iff_true, if_true, List.take_length]
  · unfold Compiler.first_pass
    simp only [def_main_label_eq, def_label_labels, def_label_buf,
      lookupLabel, eq_self_iff_true, if_true]

theorem first_pass_defines_entry_labels_witness :
    lookupLabel
      (Compiler.new.first_pass demoParams ⟨[Instruction.inc]⟩).labels
      (1, 0) =
      some ((runBody demoParams 1 Compiler.new 0
        ([Instruction.inc].take 1)).buf.length) :=
  (first_pass_defines_entry_labels demoParams ⟨[Instruction.inc]⟩).1 1
    (by decide)

/-- **C7**: for a fixup whose label key resolves to `v`, pass 2 overwrites
the 4 bytes at the fixup's offset with the raw little-endian value of `v`
(not `v` minus the placeholder's position), and a completed pass 2 never
changes the buffer's length. -/
theorem second_pass_patches_raw_value
    (labels : List ((Nat × Nat) × Nat)) (buf : List Nat)
    (off ir sub v : Nat) (rest : List (Nat × Nat × Nat))
    (hv : lookupLabel labels (ir, sub) = some v)
    (hb : off + 4 ≤ buf.length) :
    secondPassAux labels ((off, ir, sub) :: rest) buf =
        secondPassAux labels rest (patch4 buf off (le32 v)) ∧
    ((patch4 buf off (le32 v)).drop off).take 4 = le32 v ∧
    (patch4 buf off (le32 v)).length = buf.length ∧
    (∀ (phs : List (Nat × Nat × Nat)) (buf' : List Nat),
      secondPassAux labels phs buf = PassResult.ok buf' →
      buf'.length = buf.length) := by
  refine ⟨?_, ?_, patch4_length hb (le32_length v),
    fun phs buf' h => secondPassAux_ok_length labels phs buf buf' h⟩
  · simp [secondPassAux, hv, if_pos hb]
  · have htk : (buf.take off).length = off := by
      simp only [List.length_take]
      omega
    rw [patch4, List.append_assoc, drop_append_len htk,
      take_append_len (le32_length v)]

theorem second_pass_patches_raw_value_witness :
    secondPassAux [((0, 0), 9)] [(0, 0, 0)] [5, 5, 5, 5, 5] =
        secondPassAux [((0, 0), 9)] [] (patch4 [5, 5, 5, 5, 5] 0 (le32 9)) ∧
    ((patch4 [5, 5, 5, 5, 5] 0 (le32 9)).drop 0).take 4 = le32 9 ∧
    (patch4 [5, 5, 5, 5, 5] 0 (le32 9)).length =
      ([5, 5, 5, 5, 5] : List Nat).length ∧
    (∀ (phs : List (Nat × Nat × Nat)) (buf' : List Nat),
      secondPassAux [((0, 0), 9)] phs [5, 5, 5, 5, 5] =
        PassResult.ok buf' →
      buf'.length = ([5, 5, 5, 5, 5] : List Nat).length) :=
  second_pass_patches_raw_value [((0, 0), 9)] [5, 5, 5, 5, 5] 0 0 0 9 []
    (by decide) (by decide)

/-- **C8**: the `Jz(t)`/`Jnz(t)` templates emit exactly the two
conditional-jump opcode bytes followed by the 4-byte placeholder fixup for
label key `(t, 0)` — no test or compare of the current cell precedes the
jump, and no label is defined. -/
theorem jump_template_shape :
    ∀ (c : Compiler) (ps : Params) (ir last t : Nat),
      ((c.handle_instruction ps ir (Instruction.jz t) last).buf =
          c.buf ++ (JE_JZ_REL32 ++ le32 0) ∧
        (c.handle_instruction ps ir (Instruction.jz t) last).placeholders =
          c.placeholders ++ [(c.buf.length + 2, t, 0)] ∧
        (c.handle_instruction ps ir (Instruction.jz t) last).labels =
          c.labels) ∧
      ((c.handle_instruction ps ir (Instruction.jnz t) last).buf =
          c.buf ++ (JNE_JNZ_REL32 ++ le32 0) ∧
        (c.handle_instruction ps ir (Instruction.jnz t) last).placeholders =
          c.placeholders ++ [(c.buf.length + 2, t, 0)] ∧
        (c.handle_instruction ps ir (Instruction.jnz t) last).labels =
          c.labels) := by
  intro c ps ir last t
  refine ⟨⟨?_, ?_, ?_⟩, ⟨?_, ?_, ?_⟩⟩ <;>
    simp [Compiler.handle_instruction, Compiler.write_jz,
      Compiler.write_jnz, JE_JZ_REL32, JNE_JNZ_REL32]

/-- **C9**: compilation is deterministic — two runs of the two-pass
pipeline from equal starting states on the same program produce identical
buffers, label tables, fixup tables and second-pass results.  (The only
potential nondeterminism in the source, `HashMap` iteration order, is never
observed: `labels` is only queried pointwise, and the `BTreeMap` of fixups
iterates in deterministic ascending-key order.) -/
theorem compilation_deterministic (ps : Params) (p : Program)
    (c1 c2 : Compiler) (h : c1 = c2) :
    (c1.first_pass ps p).buf = (c2.first_pass ps p).buf ∧
    (c1.first_pass ps p).labels = (c2.first_pass ps p).labels ∧
    (c1.first_pass ps p).placeholders = (c2.first_pass ps p).placeholders ∧
    (c1.first_pass ps p).second_pass = (c2.first_pass ps p).second_pass := by
  subst h
  exact ⟨rfl, rfl, rfl, rfl⟩

theorem compilation_deterministic_witness :
    (Compiler.new.first_pass demoParams ⟨[Instruction.inc]⟩).buf =
      (Compiler.new.first_pass demoParams ⟨[Instruction.inc]⟩).buf ∧
    (Compiler.new.first_pass demoParams ⟨[Instruction.inc]⟩).labels =
      (Compiler.new.first_pass demoParams ⟨[Instruction.inc]⟩).labels ∧
    (Compiler.new.first_pass demoParams ⟨[Instruction.inc]⟩).placeholders =
      (Compiler.new.first_pass demoParams ⟨[Instruction.inc]⟩).placeholders ∧
    (Compiler.new.first_pass demoParams ⟨[Instruction.inc]⟩).second_pass =
      (Compiler.new.first_pass demoParams ⟨[Instruction.inc]⟩).second_pass :=
  compilation_deterministic demoParams ⟨[Instruction.inc]⟩
    Compiler.new Compiler.new rfl

/-- **C10**: every fixup offset recorded during pass 1 satisfies
`offset + 4 ≤ final buffer length`, so pass 2's in-place 4-byte patches are
always within bounds and the slice write never panics. -/
theorem placeholders_in_bounds (ps : Params) (p : Program) :
    (∀ e ∈ (Compiler.new.first_pass ps p).placeholders,
      e.1 + 4 ≤ (Compiler.new.first_pass ps p).buf.length) ∧
    (Compiler.new.first_pass ps p).second_pass ≠
      PassResult.panicOutOfBounds :=
  ⟨first_pass_placeholders_bound ps p,
    secondPassAux_ne_panic _ _ _ (first_pass_placeholders_bound ps p)⟩

theorem placeholders_in_bounds_witness :
    (∀ e ∈ (Compiler.new.first_pass demoParams
        ⟨[Instruction.halt]⟩).placeholders,
      e.1 + 4 ≤ (Compiler.new.first_pass demoParams
        ⟨[Instruction.halt]⟩).buf.length) ∧
    (Compiler.new.first_pass demoParams
      ⟨[Instruction.halt]⟩).second_pass ≠ PassResult.panicOutOfBounds :=
  placeholders_in_bounds demoParams ⟨[Instruction.halt]⟩

end FastBfc
